import Mathlib

/-!
Verification of the vibration-diagnostics core of the repository
(`vibration_analysis_mcp`): bearing characteristic frequencies, spectral
transforms, envelope harmonic matching, rule-based fault classification,
and the in-memory signal store.

Numeric model: Python floats are modelled as exact real numbers (`ℝ`)
where the source uses transcendental functions (`math.cos`, `np.sqrt`,
`np.log10`), and as rationals (`ℚ`) for the purely arithmetic envelope
peak check, so that witnesses evaluate by `decide`.
-/

/- ----------------------------------------------------------------------
bearing_freqs.py
---------------------------------------------------------------------- -/

/-- `math.radians`: degrees to radians. -/
noncomputable def radians (deg : ℝ) : ℝ := deg * Real.pi / 180

/-- Bearing physical dimensions (`BearingGeometry` dataclass). -/
structure BearingGeometry where
  name : String
  n_balls : ℕ
  ball_dia : ℝ
  pitch_dia : ℝ
  contact_angle : ℝ

/-- Calculated bearing characteristic frequencies (`BearingFrequencies` dataclass). -/
structure BearingFrequencies where
  rpm : ℝ
  ftf : ℝ
  bpfo : ℝ
  bpfi : ℝ
  bsf : ℝ
  bearing_name : String

/-- `compute_bearing_frequencies` from `bearing_freqs.py` (lines 68-108). -/
noncomputable def compute_bearing_frequencies (rpm : ℝ) (n_balls : ℕ)
    (ball_dia pitch_dia : ℝ) (contact_angle : ℝ) (bearing_name : String) :
    BearingFrequencies :=
  let f_shaft := rpm / 60
  let alpha_rad := radians contact_angle
  let ratio := ball_dia / pitch_dia
  { rpm := rpm
    ftf := f_shaft * 0.5 * (1 - ratio * Real.cos alpha_rad)
    bpfo := f_shaft * ((n_balls : ℝ) / 2) * (1 - ratio * Real.cos alpha_rad)
    bpfi := f_shaft * ((n_balls : ℝ) / 2) * (1 + ratio * Real.cos alpha_rad)
    bsf := f_shaft * (pitch_dia / (2 * ball_dia)) * (1 - (ratio * Real.cos alpha_rad) ^ 2)
    bearing_name := bearing_name }

/-- Python's ASCII uppercasing of a single character (`str.upper`; the
catalog keys are plain ASCII designations). -/
def upperChar (c : Char) : Char :=
  if 97 ≤ c.toNat ∧ c.toNat ≤ 122 then Char.ofNat (c.toNat - 32) else c

/-- `designation.upper()` on an ASCII designation string. -/
def pyUpper (s : String) : String := String.mk (s.data.map upperChar)

/-- The static `COMMON_BEARINGS` catalog (all-uppercase keys). -/
noncomputable def COMMON_BEARINGS : List (String × BearingGeometry) :=
  [ ("6205", ⟨"6205 (Deep groove)", 9, 7.938, 38.5, 0⟩)
  , ("6206", ⟨"6206 (Deep groove)", 9, 9.525, 46.0, 0⟩)
  , ("6207", ⟨"6207 (Deep groove)", 9, 11.112, 53.5, 0⟩)
  , ("6208", ⟨"6208 (Deep groove)", 9, 12.7, 60.0, 0⟩)
  , ("6305", ⟨"6305 (Deep groove)", 8, 10.319, 39.04, 0⟩)
  , ("6306", ⟨"6306 (Deep groove)", 8, 12.303, 46.36, 0⟩)
  , ("NU205", ⟨"NU205 (Cylindrical roller)", 13, 7.5, 38.5, 0⟩)
  , ("NU206", ⟨"NU206 (Cylindrical roller)", 13, 9.0, 46.0, 0⟩)
  , ("7205", ⟨"7205 (Angular contact)", 12, 7.144, 38.0, 25⟩) ]

/-- `get_bearing`: `COMMON_BEARINGS.get(designation.upper())`. -/
noncomputable def get_bearing (designation : String) : Option BearingGeometry :=
  COMMON_BEARINGS.lookup (pyUpper designation)

/- Helper lemmas for `upperChar` idempotence. -/

theorem char_toNat_ofNat_of_lt (m : ℕ) (hm : m < 55296) :
    (Char.ofNat m).toNat = m := by
  have hv : Nat.isValidChar m := Or.inl hm
  simp [Char.ofNat, hv, Char.ofNatAux, Char.toNat, UInt32.toNat]

theorem upperChar_idem (c : Char) : upperChar (upperChar c) = upperChar c := by
  unfold upperChar
  by_cases h : 97 ≤ c.toNat ∧ c.toNat ≤ 122
  · rw [if_pos h]
    have hval : (Char.ofNat (c.toNat - 32)).toNat = c.toNat - 32 :=
      char_toNat_ofNat_of_lt _ (by omega)
    have hcond : ¬(97 ≤ (Char.ofNat (c.toNat - 32)).toNat ∧
        (Char.ofNat (c.toNat - 32)).toNat ≤ 122) := by
      rw [hval]; omega
    rw [if_neg hcond]
  · rw [if_neg h, if_neg h]

theorem map_upperChar_idem (l : List Char) :
    l.map (fun c => upperChar (upperChar c)) = l.map upperChar := by
  induction l with
  | nil => rfl
  | cons a t ih => simp [upperChar_idem, ih]

theorem pyUpper_idem (s : String) : pyUpper (pyUpper s) = pyUpper s := by
  unfold pyUpper
  simp [List.map_map, Function.comp_def, map_upperChar_idem]

/-- Claim C1: for every `rpm`, `n_balls`, positive `ball_dia` and
`pitch_dia`, and `contact_angle_deg`, `compute_bearing_frequencies`
returns exactly `FTF = f_s * 0.5 * (1 - r*c)`,
`BPFO = f_s * (n_balls/2) * (1 - r*c)`,
`BPFI = f_s * (n_balls/2) * (1 + r*c)`, and
`BSF = f_s * (pitch_dia/(2*ball_dia)) * (1 - (r*c)^2)`, where
`f_s = rpm/60`, `r = ball_dia/pitch_dia`, and
`c = cos(radians(contact_angle_deg))`. -/
theorem compute_bearing_frequencies_formulas (rpm : ℝ) (n_balls : ℕ)
    (ball_dia pitch_dia contact_angle : ℝ) (nm : String)
    (hb : 0 < ball_dia) (hp : 0 < pitch_dia) :
    (compute_bearing_frequencies rpm n_balls ball_dia pitch_dia contact_angle nm).ftf
        = rpm / 60 * 0.5 *
          (1 - ball_dia / pitch_dia * Real.cos (contact_angle * Real.pi / 180))
    ∧ (compute_bearing_frequencies rpm n_balls ball_dia pitch_dia contact_angle nm).bpfo
        = rpm / 60 * ((n_balls : ℝ) / 2) *
          (1 - ball_dia / pitch_dia * Real.cos (contact_angle * Real.pi / 180))
    ∧ (compute_bearing_frequencies rpm n_balls ball_dia pitch_dia contact_angle nm).bpfi
        = rpm / 60 * ((n_balls : ℝ) / 2) *
          (1 + ball_dia / pitch_dia * Real.cos (contact_angle * Real.pi / 180))
    ∧ (compute_bearing_frequencies rpm n_balls ball_dia pitch_dia contact_angle nm).bsf
        = rpm / 60 * (pitch_dia / (2 * ball_dia)) *
          (1 - (ball_dia / pitch_dia * Real.cos (contact_angle * Real.pi / 180)) ^ 2) :=
  ⟨rfl, rfl, rfl, rfl⟩

theorem compute_bearing_frequencies_formulas_witness :
    (0:ℝ) < 1 ∧ (0:ℝ) < 2 ∧
    ((compute_bearing_frequencies 60 9 1 2 0 "B").ftf
        = 60 / 60 * 0.5 * (1 - 1 / 2 * Real.cos (0 * Real.pi / 180))
    ∧ (compute_bearing_frequencies 60 9 1 2 0 "B").bpfo
        = 60 / 60 * (((9:ℕ) : ℝ) / 2) * (1 - 1 / 2 * Real.cos (0 * Real.pi / 180))
    ∧ (compute_bearing_frequencies 60 9 1 2 0 "B").bpfi
        = 60 / 60 * (((9:ℕ) : ℝ) / 2) * (1 + 1 / 2 * Real.cos (0 * Real.pi / 180))
    ∧ (compute_bearing_frequencies 60 9 1 2 0 "B").bsf
        = 60 / 60 * (2 / (2 * 1)) * (1 - (1 / 2 * Real.cos (0 * Real.pi / 180)) ^ 2)) :=
  ⟨by norm_num, by norm_num,
    compute_bearing_frequencies_formulas 60 9 1 2 0 "B" (by norm_num) (by norm_num)⟩

/-- Claim C5: for positive rpm, `n_balls ≥ 2`, `0 < ball_dia < pitch_dia`
and zero contact angle, the returned BPFI is strictly greater than the
returned BPFO. -/
theorem bpfi_gt_bpfo (rpm : ℝ) (n_balls : ℕ) (ball_dia pitch_dia : ℝ) (nm : String)
    (hr : 0 < rpm) (hn : 2 ≤ n_balls) (hb : 0 < ball_dia) (hbp : ball_dia < pitch_dia) :
    (compute_bearing_frequencies rpm n_balls ball_dia pitch_dia 0 nm).bpfo
      < (compute_bearing_frequencies rpm n_balls ball_dia pitch_dia 0 nm).bpfi := by
  show rpm / 60 * ((n_balls : ℝ) / 2) * (1 - ball_dia / pitch_dia * Real.cos (radians 0))
      < rpm / 60 * ((n_balls : ℝ) / 2) * (1 + ball_dia / pitch_dia * Real.cos (radians 0))
  have hc : Real.cos (radians 0) = 1 := by simp [radians]
  rw [hc]
  have hp : 0 < pitch_dia := lt_trans hb hbp
  have hratio : 0 < ball_dia / pitch_dia := div_pos hb hp
  have hn2 : (2:ℝ) ≤ (n_balls : ℝ) := by exact_mod_cast hn
  have hA : 0 < rpm / 60 * ((n_balls : ℝ) / 2) := by
    apply mul_pos (by positivity)
    linarith
  apply mul_lt_mul_of_pos_left _ hA
  linarith

theorem bpfi_gt_bpfo_witness :
    (0:ℝ) < 60 ∧ 2 ≤ 9 ∧ (0:ℝ) < 1 ∧ (1:ℝ) < 2 ∧
    (compute_bearing_frequencies 60 9 1 2 0 "B").bpfo
      < (compute_bearing_frequencies 60 9 1 2 0 "B").bpfi :=
  ⟨by norm_num, by norm_num, by norm_num, by norm_num,
    bpfi_gt_bpfo 60 9 1 2 "B" (by norm_num) (by norm_num) (by norm_num) (by norm_num)⟩

/-- Claim C10: the bearing-catalog lookup is case-insensitive: for every
designation string `s`, `get_bearing s` equals `get_bearing` applied to
the uppercased form of `s`. -/
theorem get_bearing_case_insensitive (s : String) :
    get_bearing s = get_bearing (pyUpper s) := by
  unfold get_bearing
  rw [pyUpper_idem]

/- ----------------------------------------------------------------------
fft_analysis.py : compute_fft
---------------------------------------------------------------------- -/

/-- Result dictionary of `compute_fft` (`fft_analysis.py`, lines 60-67). -/
structure SpectrumResult where
  frequencies : List ℝ
  magnitude : List ℝ
  magnitude_db : List ℝ
  resolution_hz : ℝ
  max_frequency_hz : ℝ
  num_points : ℕ

/-- Periodic Hann window (`scipy.signal.get_window("hann", n)`, fftbins
default): `w[j] = 0.5 - 0.5 cos(2 pi j / n)`. Modelled from the scipy
documentation of this external library call. -/
noncomputable def get_window (window : String) (n : ℕ) : List ℝ :=
  if window = "hamming" then
    (List.range n).map (fun j : ℕ => 0.54 - 0.46 * Real.cos (2 * Real.pi * j / n))
  else if window = "blackman" then
    (List.range n).map (fun j : ℕ =>
      0.42 - 0.5 * Real.cos (2 * Real.pi * j / n) + 0.08 * Real.cos (4 * Real.pi * j / n))
  else
    (List.range n).map (fun j : ℕ => 0.5 - 0.5 * Real.cos (2 * Real.pi * j / n))

/-- One bin of `np.fft.rfft(x, n)`: the input is truncated or zero-padded
to length `n` and bin `k` is the DFT sum. Modelled from the numpy
documentation of this external library call. -/
noncomputable def rfft_bin (x : List ℝ) (n k : ℕ) : ℂ :=
  ∑ j ∈ Finset.range n,
    (x.getD j 0 : ℂ) * Complex.exp (-2 * Real.pi * Complex.I * j * k / n)

/-- `compute_fft` from `fft_analysis.py` (lines 18-67). The Python default
`n_fft=None` (meaning `len(data)`) is passed explicitly here. -/
noncomputable def compute_fft (data : List ℝ) (fs : ℝ) (window : String)
    (n_fft : ℕ) : SpectrumResult :=
  let n := data.length
  let w := if window = "rectangular" then List.replicate n (1 : ℝ) else get_window window n
  let windowed := (data.zip w).map (fun p => p.1 * p.2)
  let freqs := (List.range (n_fft / 2 + 1)).map (fun k : ℕ => (k : ℝ) * fs / n_fft)
  let magnitude :=
    (((List.range (n_fft / 2 + 1)).map
        (fun k => (2 / (n : ℝ)) * Complex.abs (rfft_bin windowed n_fft k))).modifyHead
      (fun m => m / 2))
  { frequencies := freqs
    magnitude := magnitude
    magnitude_db := magnitude.map (fun m => 20 * Real.logb 10 (m + 1e-12))
    resolution_hz := fs / n_fft
    max_frequency_hz := fs / 2
    num_points := freqs.length }

/-- Claim C4: for every non-empty signal, positive sample rate and
positive FFT length, `compute_fft` returns parallel `frequencies` and
`magnitude` arrays of length `n_fft/2 + 1`, with frequencies strictly
ascending starting at 0, and `resolution_hz = fs / n_fft`. -/
theorem compute_fft_invariants (data : List ℝ) (fs : ℝ) (window : String)
    (n_fft : ℕ) (hdata : data ≠ []) (hfs : 0 < fs) (hn : 0 < n_fft) :
    (compute_fft data fs window n_fft).frequencies.length = n_fft / 2 + 1
  ∧ (compute_fft data fs window n_fft).magnitude.length = n_fft / 2 + 1
  ∧ List.Chain' (· < ·) (compute_fft data fs window n_fft).frequencies
  ∧ (compute_fft data fs window n_fft).frequencies.head? = some 0
  ∧ (compute_fft data fs window n_fft).resolution_hz = fs / n_fft := by
  refine ⟨?_, ?_, ?_, ?_, rfl⟩
  · simp [compute_fft]
  · simp [compute_fft, List.length_modifyHead]
  · show List.Chain' (· < ·)
      ((List.range (n_fft / 2 + 1)).map (fun k : ℕ => (k : ℝ) * fs / n_fft))
    refine (List.chain'_map (fun k : ℕ => (k : ℝ) * fs / n_fft)).mpr ?_
    rw [show n_fft / 2 + 1 = (n_fft / 2).succ from rfl, List.chain'_range_succ]
    intro m _
    have hn' : (0:ℝ) < (n_fft : ℝ) := by exact_mod_cast hn
    have h1 : (m : ℝ) < ((m.succ : ℕ) : ℝ) := by exact_mod_cast Nat.lt_succ_self m
    exact div_lt_div_of_pos_right (mul_lt_mul_of_pos_right h1 hfs) hn'
  · show (((List.range (n_fft / 2 + 1)).map (fun k : ℕ => (k : ℝ) * fs / n_fft)).head?)
      = some 0
    rw [List.range_succ_eq_map, List.map_cons]
    simp

theorem compute_fft_invariants_witness :
    ([ (1:ℝ) ] ≠ [] ∧ (0:ℝ) < 2 ∧ 0 < 2) ∧
    ((compute_fft [(1:ℝ)] 2 "hann" 2).frequencies.length = 2 / 2 + 1
  ∧ (compute_fft [(1:ℝ)] 2 "hann" 2).magnitude.length = 2 / 2 + 1
  ∧ List.Chain' (· < ·) (compute_fft [(1:ℝ)] 2 "hann" 2).frequencies
  ∧ (compute_fft [(1:ℝ)] 2 "hann" 2).frequencies.head? = some 0
  ∧ (compute_fft [(1:ℝ)] 2 "hann" 2).resolution_hz = 2 / 2) :=
  ⟨⟨by simp, by norm_num, by norm_num⟩,
    compute_fft_invariants [(1:ℝ)] 2 "hann" 2 (by simp) (by norm_num) (by norm_num)⟩

/- ----------------------------------------------------------------------
envelope.py : check_bearing_peaks
---------------------------------------------------------------------- -/

/-- `np.median` over exact rationals: sort, take the middle element (odd
length) or the mean of the two middle elements (even length). Modelled
from the numpy documentation of this external library call; the empty
input (NaN in numpy) is mapped to 0 and is unreached by the claims. -/
def npMedian (l : List ℚ) : ℚ :=
  let s := List.insertionSort (· ≤ ·) l
  let n := l.length
  if n = 0 then 0
  else if n % 2 = 1 then s.getD (n / 2) 0
  else (s.getD (n / 2 - 1) 0 + s.getD (n / 2) 0) / 2

/-- Python `max` / `np.max` over a list of magnitudes (0 on the empty
list, which the source never reaches). -/
def peakMax : List ℚ → ℚ
  | [] => 0
  | x :: xs => xs.foldl max x

/-- One entry of the `details` list built by `check_bearing_peaks`
(`envelope.py`, lines 170-186); the rounded report-only fields
(`expected_hz`, `found_hz`, `noise_threshold`) are presentation data and
omitted. -/
structure HarmonicDetail where
  harmonic : ℕ
  amplitude : ℚ
  detected : Bool

/-- Result dictionary of `check_bearing_peaks` (`envelope.py`, lines 188-194). -/
structure PeakCheckResult where
  target_frequency_hz : ℚ
  harmonics_checked : ℕ
  harmonics_detected : ℕ
  confidence : String
  details : List HarmonicDetail

/-- Magnitudes of the spectrum bins whose frequency lies inside the
tolerance window (the numpy boolean mask of `envelope.py`, line 162; the
parallel `freqs`/`magnitudes` arrays are modelled as a list of pairs). -/
def windowMags (spectrum : List (ℚ × ℚ)) (center tol : ℚ) : List ℚ :=
  (spectrum.filter (fun p => center - tol ≤ p.1 ∧ p.1 ≤ center + tol)).map Prod.snd

/-- The per-harmonic body of the loop in `check_bearing_peaks`
(`envelope.py`, lines 159-186). -/
def checkHarmonic (spectrum : List (ℚ × ℚ)) (noise_floor target_freq tol_pct : ℚ)
    (h : ℕ) : HarmonicDetail :=
  let f_expected := (h : ℚ) * target_freq
  let tol := f_expected * tol_pct / 100
  let ms := windowMags spectrum f_expected tol
  if ms.isEmpty then ⟨h, 0, false⟩
  else ⟨h, peakMax ms, decide (noise_floor < peakMax ms)⟩

/-- `check_bearing_peaks` from `envelope.py` (lines 128-194). -/
def check_bearing_peaks (spectrum : List (ℚ × ℚ)) (target_freq : ℚ)
    (n_harmonics : ℕ) (tol_pct noise_floor_multiplier : ℚ) : PeakCheckResult :=
  let noise_floor := npMedian (spectrum.map Prod.snd) * noise_floor_multiplier
  let results := (List.range n_harmonics).map
    (fun i => checkHarmonic spectrum noise_floor target_freq tol_pct (i + 1))
  let detected_count := results.countP (·.detected)
  { target_frequency_hz := target_freq
    harmonics_checked := n_harmonics
    harmonics_detected := detected_count
    confidence :=
      if 2 ≤ detected_count then "high"
      else if detected_count = 1 then "medium" else "none"
    details := results }

/-- Spec-side characterization of a detected harmonic `h`: some spectrum
bin lies inside the window `h·target ± h·target·tol_pct/100` with
magnitude exceeding `median(magnitude)·noise_floor_multiplier` (the
maximum in-window magnitude exceeds the floor iff some in-window
magnitude does). -/
def harmonicHit (spectrum : List (ℚ × ℚ)) (target_freq tol_pct mult : ℚ)
    (h : ℕ) : Prop :=
  ∃ p ∈ spectrum,
    ((h : ℚ) * target_freq - (h : ℚ) * target_freq * tol_pct / 100 ≤ p.1
      ∧ p.1 ≤ (h : ℚ) * target_freq + (h : ℚ) * target_freq * tol_pct / 100)
    ∧ npMedian (spectrum.map Prod.snd) * mult < p.2

instance (spectrum : List (ℚ × ℚ)) (target_freq tol_pct mult : ℚ) (h : ℕ) :
    Decidable (harmonicHit spectrum target_freq tol_pct mult h) := by
  unfold harmonicHit
  infer_instance

theorem lt_foldl_max_iff (c a : ℚ) (l : List ℚ) :
    c < l.foldl max a ↔ c < a ∨ ∃ x ∈ l, c < x := by
  induction l generalizing a with
  | nil => simp
  | cons y t ih =>
      rw [List.foldl_cons, ih, lt_max_iff]
      constructor
      · rintro (( h | h) | ⟨x, hx, hcx⟩)
        · exact Or.inl h
        · exact Or.inr ⟨y, List.mem_cons_self y t, h⟩
        · exact Or.inr ⟨x, List.mem_cons_of_mem y hx, hcx⟩
      · rintro (h | ⟨x, hx, hcx⟩)
        · exact Or.inl (Or.inl h)
        · rcases List.mem_cons.mp hx with rfl | hx
          · exact Or.inl (Or.inr hcx)
          · exact Or.inr ⟨x, hx, hcx⟩

theorem lt_peakMax_iff (c : ℚ) (l : List ℚ) (hl : l ≠ []) :
    c < peakMax l ↔ ∃ x ∈ l, c < x := by
  cases l with
  | nil => exact absurd rfl hl
  | cons y t => rw [peakMax, lt_foldl_max_iff]; simp

theorem mem_windowMags (spectrum : List (ℚ × ℚ)) (center tol x : ℚ) :
    x ∈ windowMags spectrum center tol ↔
      ∃ p ∈ spectrum, (center - tol ≤ p.1 ∧ p.1 ≤ center + tol) ∧ p.2 = x := by
  unfold windowMags
  simp only [List.mem_map, List.mem_filter, decide_eq_true_eq]
  constructor
  · rintro ⟨p, ⟨hp, hcond⟩, rfl⟩
    exact ⟨p, hp, hcond, rfl⟩
  · rintro ⟨p, hp, hcond, rfl⟩
    exact ⟨p, ⟨hp, hcond⟩, rfl⟩

theorem checkHarmonic_detected_iff (spectrum : List (ℚ × ℚ))
    (target_freq tol_pct mult : ℚ) (h : ℕ) :
    (checkHarmonic spectrum (npMedian (spectrum.map Prod.snd) * mult)
        target_freq tol_pct h).detected = true
      ↔ harmonicHit spectrum target_freq tol_pct mult h := by
  unfold checkHarmonic harmonicHit
  set c := (h : ℚ) * target_freq with hc
  set tol := c * tol_pct / 100 with htol
  by_cases hemp : (windowMags spectrum c tol).isEmpty
  · rw [if_pos hemp]
    simp only [List.isEmpty_iff] at hemp
    constructor
    · intro hfalse; exact absurd hfalse (by simp)
    · rintro ⟨p, hp, hcond, hlt⟩
      have : p.2 ∈ windowMags spectrum c tol :=
        (mem_windowMags spectrum c tol p.2).mpr ⟨p, hp, hcond, rfl⟩
      rw [hemp] at this
      exact absurd this (List.not_mem_nil _)
  · rw [if_neg hemp]
    simp only [List.isEmpty_iff] at hemp
    simp only [decide_eq_true_eq]
    rw [lt_peakMax_iff _ _ hemp]
    constructor
    · rintro ⟨x, hx, hltx⟩
      rcases (mem_windowMags spectrum c tol x).mp hx with ⟨p, hp, hcond, rfl⟩
      exact ⟨p, hp, hcond, hltx⟩
    · rintro ⟨p, hp, hcond, hlt⟩
      exact ⟨p.2, (mem_windowMags spectrum c tol p.2).mpr ⟨p, hp, hcond, rfl⟩, hlt⟩

/-- Claim C2: in `check_bearing_peaks`, harmonic `h ∈ 1..n_harmonics` is
reported as detected iff some bin lies in the window
`h·target ± h·target·tolerance_pct/100` with magnitude exceeding
`median(magnitude)·noise_floor_multiplier`; `harmonics_detected` counts
exactly those harmonics; and the overall confidence is `"high"` when at
least 2 are detected, `"medium"` when exactly 1, `"none"` otherwise. -/
theorem check_bearing_peaks_spec (spectrum : List (ℚ × ℚ)) (target_freq : ℚ)
    (n_harmonics : ℕ) (tol_pct mult : ℚ) :
    (∀ h, 1 ≤ h → h ≤ n_harmonics →
      (((check_bearing_peaks spectrum target_freq n_harmonics tol_pct mult).details.getD
          (h - 1) ⟨0, 0, false⟩).detected = true
        ↔ harmonicHit spectrum target_freq tol_pct mult h))
  ∧ (check_bearing_peaks spectrum target_freq n_harmonics tol_pct mult).harmonics_detected
      = (List.range n_harmonics).countP
          (fun i => decide (harmonicHit spectrum target_freq tol_pct mult (i + 1)))
  ∧ (check_bearing_peaks spectrum target_freq n_harmonics tol_pct mult).confidence
      = (if 2 ≤ (check_bearing_peaks spectrum target_freq n_harmonics
            tol_pct mult).harmonics_detected then "high"
        else if (check_bearing_peaks spectrum target_freq n_harmonics
            tol_pct mult).harmonics_detected = 1 then "medium" else "none") := by
  refine ⟨?_, ?_, rfl⟩
  · intro h h1 hn
    show ((((List.range n_harmonics).map
        (fun i => checkHarmonic spectrum (npMedian (spectrum.map Prod.snd) * mult)
          target_freq tol_pct (i + 1))).getD (h - 1) ⟨0, 0, false⟩)).detected = true
      ↔ harmonicHit spectrum target_freq tol_pct mult h
    rw [List.getD_eq_getElem?_getD, List.getElem?_map,
      List.getElem?_range (by omega : h - 1 < n_harmonics)]
    have hh : h - 1 + 1 = h := by omega
    rw [Option.map_some', Option.getD_some, hh]
    exact checkHarmonic_detected_iff spectrum target_freq tol_pct mult h
  · show ((List.range n_harmonics).map
        (fun i => checkHarmonic spectrum (npMedian (spectrum.map Prod.snd) * mult)
          target_freq tol_pct (i + 1))).countP (·.detected)
      = (List.range n_harmonics).countP
          (fun i => decide (harmonicHit spectrum target_freq tol_pct mult (i + 1)))
    rw [List.countP_map]
    apply List.countP_congr
    intro i _
    simp only [Function.comp_apply, decide_eq_true_eq]
    exact checkHarmonic_detected_iff spectrum target_freq tol_pct mult (i + 1)

/- ----------------------------------------------------------------------
fault_detection.py : extract_shaft_features and classify_faults
---------------------------------------------------------------------- -/

/-- `np.mean` over reals (empty input maps to 0, as 0/0 = 0 in `ℝ`). -/
noncomputable def npMean (l : List ℝ) : ℝ := l.sum / l.length

/-- `np.std` (population, ddof = 0): square root of the mean squared
deviation from the mean. -/
noncomputable def npStd (l : List ℝ) : ℝ :=
  Real.sqrt (npMean (l.map (fun v => (v - npMean l) ^ 2)))

/-- `np.max` over a list of reals (0 on the empty list, unreached). -/
noncomputable def peakMaxR : List ℝ → ℝ
  | [] => 0
  | x :: xs => xs.foldl max x

/-- Real-valued variant of the tolerance-window mask (numpy mask of
`fault_detection.py`, line 117). -/
noncomputable def windowMagsR (spectrum : List (ℝ × ℝ)) (center tol : ℝ) : List ℝ :=
  (spectrum.filter (fun p => center - tol ≤ p.1 ∧ p.1 ≤ center + tol)).map Prod.snd

/-- `_peak_at` from `extract_shaft_features` (`fault_detection.py`,
lines 115-120): maximum magnitude inside the window, 0 if no bin falls
inside. -/
noncomputable def peakAt (spectrum : List (ℝ × ℝ)) (tolerance_pct f_target : ℝ) : ℝ :=
  let tol := f_target * tolerance_pct / 100
  let ms := windowMagsR spectrum f_target tol
  if ms.isEmpty then 0 else peakMaxR ms

/-- `ShaftFeatures` dataclass (`fault_detection.py`, lines 79-89). -/
structure ShaftFeatures where
  f_shaft : ℝ
  amp_1x : ℝ
  amp_2x : ℝ
  amp_3x : ℝ
  amp_half_x : ℝ
  rms_overall : ℝ
  crest_factor : ℝ
  kurtosis : ℝ

/-- `extract_shaft_features` from `fault_detection.py` (lines 92-153);
the parallel `freqs`/`magnitudes` arrays are modelled as a list of
pairs. -/
noncomputable def extract_shaft_features (spectrum : List (ℝ × ℝ)) (shaft_freq : ℝ)
    (time_signal : Option (List ℝ)) (tolerance_pct : ℝ) : ShaftFeatures :=
  let amp_1x := peakAt spectrum tolerance_pct shaft_freq
  let amp_2x := peakAt spectrum tolerance_pct (2 * shaft_freq)
  let amp_3x := peakAt spectrum tolerance_pct (3 * shaft_freq)
  let amp_half := peakAt spectrum tolerance_pct (0.5 * shaft_freq)
  let rms_overall := Real.sqrt (npMean ((spectrum.map Prod.snd).map (fun m => m ^ 2)))
  match time_signal with
  | some ts =>
      let ts_rms := Real.sqrt (npMean (ts.map (fun v => v ^ 2)))
      let crest := if 0 < ts_rms then peakMaxR (ts.map (fun v => |v|)) / ts_rms else 0
      let mean_ts := npMean ts
      let std_ts := npStd ts
      let kurt :=
        if 0 < std_ts then
          (ts.map (fun v => ((v - mean_ts) / std_ts) ^ 4)).sum / (ts.length : ℝ)
        else 0
      ⟨shaft_freq, amp_1x, amp_2x, amp_3x, amp_half, rms_overall, crest, kurt⟩
  | none => ⟨shaft_freq, amp_1x, amp_2x, amp_3x, amp_half, rms_overall, 0, 0⟩

/-- Per-defect entry of the optional `bearing_envelope_results` dict
consumed by `classify_faults`. -/
structure EnvelopeFaultResult where
  confidence : String
  harmonics_detected : ℕ

/-- The optional `bearing_envelope_results` dict with its four recognized
keys (`fault_detection.py`, lines 276-281). -/
structure BearingEnvelopeResults where
  bpfo : Option EnvelopeFaultResult
  bpfi : Option EnvelopeFaultResult
  bsf : Option EnvelopeFaultResult
  ftf : Option EnvelopeFaultResult

/-- `FaultDiagnosis` dataclass restricted to its decision-relevant fields
(`fault_type`, `confidence`); `description`, `evidence` and
`recommendations` are presentation strings. -/
structure FaultDiagnosis where
  fault_type : String
  confidence : String

/-- The `priority` map used to sort diagnoses (`fault_detection.py`,
line 318), with the `.get(…, 3)` default. -/
def confidencePriority (c : String) : ℕ :=
  if c = "high" then 0 else if c = "medium" then 1 else if c = "low" then 2 else 3

/-- Python's stable `list.sort(key=…)` on the confidence priority. -/
def sortDiagnoses (l : List FaultDiagnosis) : List FaultDiagnosis :=
  List.insertionSort
    (fun a b => confidencePriority a.confidence ≤ confidencePriority b.confidence) l

/-- One iteration of the bearing-defect loop (`fault_detection.py`,
lines 275-298): emit a diagnosis when the key is present with a
non-"none" confidence. -/
def bearingDiagnoses (key : String) (r : Option EnvelopeFaultResult) :
    List FaultDiagnosis :=
  match r with
  | none => []
  | some res =>
      if res.confidence ≠ "none" then [⟨"bearing_" ++ key, res.confidence⟩] else []

/-- The clamped RMS denominator (`fault_detection.py`, line 196):
`rms_overall` if positive, else `1e-12`. -/
noncomputable def clampedRms (f : ShaftFeatures) : ℝ :=
  if 0 < f.rms_overall then f.rms_overall else 1e-12

/-- The unbalance rule (`fault_detection.py`, lines 198-216): dominant
1x with low 2x. Only the decision-relevant `fault_type`/`confidence`
pair of each emitted diagnosis is modelled. -/
noncomputable def unbalanceDiagnoses (f : ShaftFeatures) : List FaultDiagnosis :=
  if 3 < f.amp_1x / clampedRms f ∧ 2 * f.amp_2x < f.amp_1x then
    [⟨"unbalance", if 5 < f.amp_1x / clampedRms f then "high" else "medium"⟩]
  else []

/-- The misalignment rule (`fault_detection.py`, lines 218-235):
significant 2x. -/
noncomputable def misalignmentDiagnoses (f : ShaftFeatures) : List FaultDiagnosis :=
  if 2.5 < f.amp_2x / clampedRms f ∧ 0.5 * f.amp_1x < f.amp_2x then
    [⟨"misalignment", if f.amp_1x < f.amp_2x then "high" else "medium"⟩]
  else []

/-- The mechanical-looseness rule (`fault_detection.py`, lines 237-256):
at least 3 of the 1x/2x/3x ratios above 1.5, or an elevated 0.5x
sub-harmonic. -/
noncomputable def loosenessDiagnoses (f : ShaftFeatures) : List FaultDiagnosis :=
  if 3 ≤ ((if 1.5 < f.amp_1x / clampedRms f then 1 else 0)
        + (if 1.5 < f.amp_2x / clampedRms f then 1 else 0)
        + (if 1.5 < f.amp_3x / clampedRms f then 1 else 0) : ℕ)
      ∨ 1.5 < f.amp_half_x / clampedRms f then
    [⟨"mechanical_looseness", "medium"⟩]
  else []

/-- The impulsiveness rule (`fault_detection.py`, lines 258-272):
kurtosis above 4 or crest factor above 5. -/
noncomputable def impulsiveDiagnoses (f : ShaftFeatures) : List FaultDiagnosis :=
  if 4 < f.kurtosis ∨ 5 < f.crest_factor then
    [⟨"impulsive_signal", "medium"⟩]
  else []

/-- The bearing-defect loop over the four recognized keys
(`fault_detection.py`, lines 274-298). -/
def allBearingDiagnoses (ber : Option BearingEnvelopeResults) : List FaultDiagnosis :=
  match ber with
  | none => []
  | some b =>
      bearingDiagnoses "bpfo" b.bpfo ++ bearingDiagnoses "bpfi" b.bpfi
        ++ bearingDiagnoses "bsf" b.bsf ++ bearingDiagnoses "ftf" b.ftf

/-- The rule-firing part of `classify_faults` (`fault_detection.py`,
lines 195-298): the diagnoses emitted by the five rules, in source
order, before the healthy fallback and the confidence sort. -/
noncomputable def preDiagnoses (features : ShaftFeatures)
    (bearing_envelope_results : Option BearingEnvelopeResults) : List FaultDiagnosis :=
  unbalanceDiagnoses features ++ misalignmentDiagnoses features
    ++ loosenessDiagnoses features ++ impulsiveDiagnoses features
    ++ allBearingDiagnoses bearing_envelope_results

/-- `classify_faults` from `fault_detection.py` (lines 179-320). -/
noncomputable def classify_faults (features : ShaftFeatures)
    (bearing_envelope_results : Option BearingEnvelopeResults) : List FaultDiagnosis :=
  let diagnoses := preDiagnoses features bearing_envelope_results
  sortDiagnoses (if diagnoses.isEmpty then [⟨"healthy", "medium"⟩] else diagnoses)

/- Spec-side rule-firing conditions (section 4.4 of the design). -/

/-- Unbalance rule condition: `amp_1x/rms > 3` and `amp_1x > 2·amp_2x`. -/
noncomputable def unbalanceFired (f : ShaftFeatures) : Prop :=
  3 < f.amp_1x / clampedRms f ∧ 2 * f.amp_2x < f.amp_1x

/-- Misalignment rule condition: `amp_2x/rms > 2.5` and `amp_2x > 0.5·amp_1x`. -/
noncomputable def misalignmentFired (f : ShaftFeatures) : Prop :=
  2.5 < f.amp_2x / clampedRms f ∧ 0.5 * f.amp_1x < f.amp_2x

/-- Looseness rule condition: all three of the 1x/2x/3x ratios above 1.5
(at least 3 of 3), or the 0.5x sub-harmonic ratio above 1.5. -/
noncomputable def loosenessFired (f : ShaftFeatures) : Prop :=
  (1.5 < f.amp_1x / clampedRms f ∧ 1.5 < f.amp_2x / clampedRms f
    ∧ 1.5 < f.amp_3x / clampedRms f)
  ∨ 1.5 < f.amp_half_x / clampedRms f

/-- Impulsiveness rule condition: kurtosis above 4 or crest factor above 5. -/
noncomputable def impulsiveFired (f : ShaftFeatures) : Prop :=
  4 < f.kurtosis ∨ 5 < f.crest_factor

/-- A per-key bearing entry is present with non-"none" confidence. -/
def bearingKeyFired (r : Option EnvelopeFaultResult) : Prop :=
  ∃ res, r = some res ∧ res.confidence ≠ "none"

/-- The bearing rule fired for at least one of the four keys. -/
def bearingFired (ber : Option BearingEnvelopeResults) : Prop :=
  ∃ b, ber = some b ∧
    (bearingKeyFired b.bpfo ∨ bearingKeyFired b.bpfi
      ∨ bearingKeyFired b.bsf ∨ bearingKeyFired b.ftf)

/- Helper lemmas for the healthy-fallback analysis. -/

theorem ite_singleton_eq_nil {α : Type} (c : Prop) [Decidable c] (d : α) :
    (if c then [d] else []) = [] ↔ ¬c := by
  split_ifs with h <;> simp [h]

theorem mem_ite_singleton {α : Type} {c : Prop} [Decidable c] {d x : α}
    (h : d ∈ (if c then [x] else [])) : d = x := by
  split_ifs at h with hc
  · simpa using h
  · simp at h

theorem three_count_iff (c1 c2 c3 : Prop) [Decidable c1] [Decidable c2] [Decidable c3] :
    3 ≤ ((if c1 then 1 else 0) + (if c2 then 1 else 0) + (if c3 then 1 else 0) : ℕ)
      ↔ c1 ∧ c2 ∧ c3 := by
  split_ifs <;> simp_all

theorem unbalanceDiagnoses_eq_nil (f : ShaftFeatures) :
    unbalanceDiagnoses f = [] ↔ ¬unbalanceFired f := by
  unfold unbalanceDiagnoses unbalanceFired
  exact ite_singleton_eq_nil _ _

theorem misalignmentDiagnoses_eq_nil (f : ShaftFeatures) :
    misalignmentDiagnoses f = [] ↔ ¬misalignmentFired f := by
  unfold misalignmentDiagnoses misalignmentFired
  exact ite_singleton_eq_nil _ _

theorem loosenessDiagnoses_eq_nil (f : ShaftFeatures) :
    loosenessDiagnoses f = [] ↔ ¬loosenessFired f := by
  unfold loosenessDiagnoses loosenessFired
  rw [ite_singleton_eq_nil]
  exact not_congr (or_congr_left (three_count_iff _ _ _))

theorem impulsiveDiagnoses_eq_nil (f : ShaftFeatures) :
    impulsiveDiagnoses f = [] ↔ ¬impulsiveFired f := by
  unfold impulsiveDiagnoses impulsiveFired
  exact ite_singleton_eq_nil _ _

theorem bearingDiagnoses_eq_nil (key : String) (r : Option EnvelopeFaultResult) :
    bearingDiagnoses key r = [] ↔ ¬bearingKeyFired r := by
  cases r with
  | none => simp [bearingDiagnoses, bearingKeyFired]
  | some res =>
      unfold bearingDiagnoses bearingKeyFired
      rw [ite_singleton_eq_nil]
      simp

theorem allBearingDiagnoses_eq_nil (ber : Option BearingEnvelopeResults) :
    allBearingDiagnoses ber = [] ↔ ¬bearingFired ber := by
  cases ber with
  | none => simp [allBearingDiagnoses, bearingFired]
  | some b =>
      unfold allBearingDiagnoses bearingFired
      simp only [List.append_eq_nil, bearingDiagnoses_eq_nil, Option.some.injEq,
        exists_eq_left']
      tauto

theorem preDiagnoses_eq_nil (f : ShaftFeatures) (ber : Option BearingEnvelopeResults) :
    preDiagnoses f ber = [] ↔
      ¬(unbalanceFired f ∨ misalignmentFired f ∨ loosenessFired f
        ∨ impulsiveFired f ∨ bearingFired ber) := by
  unfold preDiagnoses
  simp only [List.append_eq_nil, unbalanceDiagnoses_eq_nil, misalignmentDiagnoses_eq_nil,
    loosenessDiagnoses_eq_nil, impulsiveDiagnoses_eq_nil, allBearingDiagnoses_eq_nil]
  tauto

theorem bearingDiagnoses_fault_type (key : String) (r : Option EnvelopeFaultResult)
    (d : FaultDiagnosis) (h : d ∈ bearingDiagnoses key r) :
    d.fault_type = "bearing_" ++ key := by
  cases r with
  | none => simp [bearingDiagnoses] at h
  | some res =>
      unfold bearingDiagnoses at h
      rw [mem_ite_singleton h]

theorem preDiagnoses_fault_types (f : ShaftFeatures) (ber : Option BearingEnvelopeResults)
    (d : FaultDiagnosis) (hd : d ∈ preDiagnoses f ber) :
    d.fault_type ≠ "healthy" := by
  unfold preDiagnoses at hd
  simp only [List.mem_append] at hd
  rcases hd with ((((h | h) | h) | h) | h)
  · unfold unbalanceDiagnoses at h
    rw [mem_ite_singleton h]
    show ("unbalance" : String) ≠ "healthy"
    decide
  · unfold misalignmentDiagnoses at h
    rw [mem_ite_singleton h]
    show ("misalignment" : String) ≠ "healthy"
    decide
  · unfold loosenessDiagnoses at h
    rw [mem_ite_singleton h]
    decide
  · unfold impulsiveDiagnoses at h
    rw [mem_ite_singleton h]
    decide
  · cases ber with
    | none => simp [allBearingDiagnoses] at h
    | some b =>
        unfold allBearingDiagnoses at h
        simp only [List.mem_append] at h
        rcases h with ((h | h) | h) | h <;>
          rw [bearingDiagnoses_fault_type _ _ _ h] <;> decide

/-- Claim C3: `classify_faults` emits a "healthy" diagnosis (with medium
confidence) iff no other classification rule fired, and in that case
"healthy" is the sole entry of the returned list. -/
theorem classify_faults_healthy_iff (f : ShaftFeatures)
    (ber : Option BearingEnvelopeResults) :
    ((∃ d ∈ classify_faults f ber, d.fault_type = "healthy") ↔
      ¬(unbalanceFired f ∨ misalignmentFired f ∨ loosenessFired f
        ∨ impulsiveFired f ∨ bearingFired ber))
  ∧ ((∃ d ∈ classify_faults f ber, d.fault_type = "healthy") →
      classify_faults f ber = [⟨"healthy", "medium"⟩]) := by
  have hmem : ∀ (l : List FaultDiagnosis) (d : FaultDiagnosis),
      d ∈ sortDiagnoses l ↔ d ∈ l :=
    fun l d => (List.perm_insertionSort _ l).mem_iff
  by_cases hpre : preDiagnoses f ber = []
  · have hclassify : classify_faults f ber = [⟨"healthy", "medium"⟩] := by
      unfold classify_faults
      rw [hpre]
      rfl
    refine ⟨⟨fun _ => (preDiagnoses_eq_nil f ber).mp hpre, fun _ => ?_⟩,
      fun _ => hclassify⟩
    exact ⟨⟨"healthy", "medium"⟩, by rw [hclassify]; exact List.mem_singleton_self _, rfl⟩
  · have hclassify : classify_faults f ber = sortDiagnoses (preDiagnoses f ber) := by
      rcases hl : preDiagnoses f ber with _ | ⟨a, t⟩
      · exact absurd hl hpre
      · unfold classify_faults
        rw [hl]
        rfl
    have hnohealthy : ¬∃ d ∈ classify_faults f ber, d.fault_type = "healthy" := by
      rintro ⟨d, hd, hft⟩
      rw [hclassify] at hd
      exact absurd hft (preDiagnoses_fault_types f ber d ((hmem _ d).mp hd))
    refine ⟨⟨fun h => absurd h hnohealthy, fun hno => ?_⟩,
      fun h => absurd h hnohealthy⟩
    exact absurd ((preDiagnoses_eq_nil f ber).mpr hno) hpre

/- Helper lemmas for degenerate (zero-RMS / all-zero) inputs. -/

theorem sortDiagnoses_eq_nil {l : List FaultDiagnosis} (h : sortDiagnoses l = []) :
    l = [] := by
  have hp := List.perm_insertionSort
    (fun a b => confidencePriority a.confidence ≤ confidencePriority b.confidence) l
  unfold sortDiagnoses at h
  rw [h] at hp
  exact hp.symm.eq_nil

theorem npMean_replicate_zero (n : ℕ) : npMean (List.replicate n (0:ℝ)) = 0 := by
  unfold npMean
  simp

theorem clampedRms_zero_eq_eps (f : ShaftFeatures) :
    clampedRms { f with rms_overall := 0 }
      = clampedRms { f with rms_overall := 1e-12 } := by
  unfold clampedRms
  norm_num

theorem preDiagnoses_rms_clamp (f : ShaftFeatures) (ber : Option BearingEnvelopeResults) :
    preDiagnoses { f with rms_overall := 0 } ber
      = preDiagnoses { f with rms_overall := 1e-12 } ber := by
  unfold preDiagnoses unbalanceDiagnoses misalignmentDiagnoses loosenessDiagnoses
    impulsiveDiagnoses
  rw [clampedRms_zero_eq_eps f]

/-- Claim C8: on numerically degenerate inputs the classifier and the
feature extractor still return well-defined results: `classify_faults`
always returns a non-empty diagnosis list; a zero `rms_overall` is
replaced by the `1e-12` fallback denominator (so classification with
`rms_overall = 0` agrees with classification with the clamped value);
and on an all-zero time signal the guarded crest factor and kurtosis
both fall back to 0. -/
theorem classify_faults_degenerate_safe (f : ShaftFeatures)
    (ber : Option BearingEnvelopeResults) (spectrum : List (ℝ × ℝ))
    (sf tol : ℝ) (n : ℕ) :
    classify_faults f ber ≠ []
  ∧ classify_faults { f with rms_overall := 0 } ber
      = classify_faults { f with rms_overall := 1e-12 } ber
  ∧ (extract_shaft_features spectrum sf (some (List.replicate n 0)) tol).crest_factor = 0
  ∧ (extract_shaft_features spectrum sf (some (List.replicate n 0)) tol).kurtosis = 0 := by
  have hrms : Real.sqrt (npMean ((List.replicate n (0:ℝ)).map (fun v => v ^ 2))) = 0 := by
    have hmap2 : (List.replicate n (0:ℝ)).map (fun v => v ^ 2) = List.replicate n 0 := by
      simp [List.map_replicate]
    rw [hmap2, npMean_replicate_zero, Real.sqrt_zero]
  have hstd : npStd (List.replicate n (0:ℝ)) = 0 := by
    unfold npStd
    have hmap : (List.replicate n (0:ℝ)).map
        (fun v => (v - npMean (List.replicate n 0)) ^ 2) = List.replicate n 0 := by
      simp [List.map_replicate, npMean_replicate_zero]
    rw [hmap, npMean_replicate_zero, Real.sqrt_zero]
  refine ⟨?_, ?_, ?_, ?_⟩
  · intro hcon
    rcases hl : preDiagnoses f ber with _ | ⟨a, t⟩
    · have h1 : classify_faults f ber = [⟨"healthy", "medium"⟩] := by
        unfold classify_faults
        rw [hl]
        rfl
      rw [h1] at hcon
      exact absurd hcon (by simp)
    · have h1 : classify_faults f ber = sortDiagnoses (a :: t) := by
        unfold classify_faults
        rw [hl]
        rfl
      rw [h1] at hcon
      have := sortDiagnoses_eq_nil hcon
      simp at this
  · unfold classify_faults
    rw [preDiagnoses_rms_clamp f ber]
  · have h1 : (extract_shaft_features spectrum sf (some (List.replicate n 0)) tol).crest_factor
        = if 0 < Real.sqrt (npMean ((List.replicate n (0:ℝ)).map (fun v => v ^ 2))) then
            peakMaxR ((List.replicate n (0:ℝ)).map (fun v => |v|))
              / Real.sqrt (npMean ((List.replicate n (0:ℝ)).map (fun v => v ^ 2)))
          else 0 := rfl
    rw [h1, hrms]
    simp
  · have h2 : (extract_shaft_features spectrum sf (some (List.replicate n 0)) tol).kurtosis
        = if 0 < npStd (List.replicate n (0:ℝ)) then
            ((List.replicate n (0:ℝ)).map
              (fun v => ((v - npMean (List.replicate n 0)) / npStd (List.replicate n 0)) ^ 4)).sum
              / ((List.replicate n (0:ℝ)).length : ℝ)
          else 0 := rfl
    rw [h2, hstd]
    simp

/- ----------------------------------------------------------------------
Kurtosis: fourth standardized moment vs Fisher excess
---------------------------------------------------------------------- -/

/-- Spec-side definition following the glossary's words: the fourth
standardized moment `sum(((v - mean)/std)^4)/n` of a time signal, with
population mean and standard deviation; the spec's "kurtosis (excess)"
is this value minus 3. -/
noncomputable def fourthStandardizedMoment (ts : List ℝ) : ℝ :=
  (ts.map (fun v => ((v - npMean ts) / npStd ts) ^ 4)).sum / (ts.length : ℝ)

theorem npMean_pm_one : npMean [(1:ℝ), -1, 1, -1] = 0 := by
  unfold npMean
  norm_num

theorem npStd_pm_one : npStd [(1:ℝ), -1, 1, -1] = 1 := by
  unfold npStd
  rw [npMean_pm_one]
  have hmap : ([(1:ℝ), -1, 1, -1].map (fun v => (v - 0) ^ 2)) = [1, 1, 1, 1] := by
    norm_num
  rw [hmap]
  have hm : npMean [(1:ℝ), 1, 1, 1] = 1 := by
    unfold npMean
    norm_num
  rw [hm, Real.sqrt_one]

theorem extract_kurtosis_eq_ite (spectrum : List (ℝ × ℝ)) (sf tol : ℝ) (ts : List ℝ) :
    (extract_shaft_features spectrum sf (some ts) tol).kurtosis
      = if 0 < npStd ts then
          (ts.map (fun v => ((v - npMean ts) / npStd ts) ^ 4)).sum / (ts.length : ℝ)
        else 0 := rfl

/-- Counterexample to claim C6: on the signal `[1, -1, 1, -1]` the
`kurtosis` field computed by `extract_shaft_features` is the fourth
standardized moment itself (here 1), not the Fisher excess value
(fourth standardized moment minus 3, here -2). -/
theorem extract_kurtosis_not_excess :
    (extract_shaft_features [] 1 (some [1, -1, 1, -1]) 3).kurtosis
      ≠ fourthStandardizedMoment [1, -1, 1, -1] - 3 := by
  have hk : (extract_shaft_features [] 1 (some [1, -1, 1, -1]) 3).kurtosis = 1 := by
    rw [extract_kurtosis_eq_ite, if_pos (by rw [npStd_pm_one]; norm_num)]
    rw [npMean_pm_one, npStd_pm_one]
    norm_num
  have hm : fourthStandardizedMoment [(1:ℝ), -1, 1, -1] = 1 := by
    unfold fourthStandardizedMoment
    rw [npMean_pm_one, npStd_pm_one]
    norm_num
  rw [hk, hm]
  norm_num

/-- Claim C6 (amended): for every time signal with positive standard
deviation, the `kurtosis` field of `extract_shaft_features` is the
fourth standardized moment itself (Pearson convention, ≈ 3 for a
Gaussian signal) with no `- 3` shift; the Fisher excess convention is
implemented only by the separate signal-summary statistic
(`data_store._kurtosis`, modelled below). -/
theorem extract_kurtosis_fourth_moment (spectrum : List (ℝ × ℝ)) (sf tol : ℝ)
    (ts : List ℝ) (hstd : 0 < npStd ts) :
    (extract_shaft_features spectrum sf (some ts) tol).kurtosis
      = fourthStandardizedMoment ts := by
  rw [extract_kurtosis_eq_ite, if_pos hstd]
  rfl

theorem extract_kurtosis_fourth_moment_witness :
    0 < npStd [(1:ℝ), -1, 1, -1]
  ∧ (extract_shaft_features [] 1 (some [(1:ℝ), -1, 1, -1]) 3).kurtosis
      = fourthStandardizedMoment [(1:ℝ), -1, 1, -1] :=
  ⟨by rw [npStd_pm_one]; norm_num,
    extract_kurtosis_fourth_moment [] 1 3 [(1:ℝ), -1, 1, -1]
      (by rw [npStd_pm_one]; norm_num)⟩

/- ----------------------------------------------------------------------
data_store.py : DataStore and _kurtosis
---------------------------------------------------------------------- -/

/-- Sample standard deviation (`np.std(x, ddof=1)`): square root of the
sum of squared deviations over `n - 1`. -/
noncomputable def npStdSample (l : List ℝ) : ℝ :=
  Real.sqrt ((l.map (fun v => (v - npMean l) ^ 2)).sum / ((l.length : ℝ) - 1))

/-- The module-level kurtosis helper of `data_store.py` (lines 79-88):
Fisher excess kurtosis (mean of the fourth standardized powers minus 3)
with ddof = 1 standard deviation, guarded to 0 for fewer than 4 samples
or a near-zero standard deviation. -/
noncomputable def dataStore_kurtosis (x : List ℝ) : ℝ :=
  if x.length < 4 then 0
  else if npStdSample x < 1e-15 then 0
  else (x.map (fun v => ((v - npMean x) / npStdSample x) ^ 4)).sum / (x.length : ℝ) - 3

/-- A stored signal with metadata (`DataEntry` dataclass, lines 25-44);
the wall-clock `created_at` timestamp is outside the model, and
`np.asarray(signal, dtype=np.float64)` is the identity on the
real-valued signal model. -/
structure DataEntry where
  signal : List ℝ
  sample_rate : ℝ
  metadata : List (String × String)

/-- The in-memory `DataStore` (lines 91-137), modelled as its
key-to-entry dictionary. -/
structure DataStore where
  entries : String → Option DataEntry

/-- `DataStore.put` (lines 97-110): upsert of an entry under the given
id; returns the updated store and the id. -/
def DataStore.put (st : DataStore) (data_id : String) (signal : List ℝ)
    (sample_rate : ℝ) (metadata : List (String × String)) : DataStore × String :=
  (⟨fun k => if k = data_id then some ⟨signal, sample_rate, metadata⟩ else st.entries k⟩,
    data_id)

/-- `DataStore.get` (lines 123-124). -/
def DataStore.get (st : DataStore) (data_id : String) : Option DataEntry :=
  st.entries data_id

/-- `DataStore.remove` (lines 126-127): pops the entry and reports
whether it was present. -/
def DataStore.remove (st : DataStore) (data_id : String) : DataStore × Bool :=
  (⟨fun k => if k = data_id then none else st.entries k⟩, (st.entries data_id).isSome)

/-- Claim C9: `put` followed by `get` with the same id returns an entry
holding exactly the stored signal (float64 storage is the identity in
the real-number model), and `remove` followed by `get` returns
not-found. -/
theorem dataStore_put_get_remove (st : DataStore) (data_id : String)
    (signal : List ℝ) (sample_rate : ℝ) (metadata : List (String × String)) :
    ((st.put data_id signal sample_rate metadata).1.get data_id)
      = some ⟨signal, sample_rate, metadata⟩
  ∧ (((st.put data_id signal sample_rate metadata).1.remove data_id).1.get data_id)
      = none := by
  constructor <;> simp [DataStore.put, DataStore.get, DataStore.remove]

/- ----------------------------------------------------------------------
fft_analysis.py : find_peaks_in_spectrum
---------------------------------------------------------------------- -/

/-- One entry of the peak list returned by `find_peaks_in_spectrum`
(`fft_analysis.py`, lines 183-187). -/
structure Peak where
  frequency_hz : ℝ
  magnitude : ℝ
  magnitude_db : ℝ

/-- Python `int()`: truncation toward zero. -/
noncomputable def pyInt (x : ℝ) : ℤ := if 0 ≤ x then ⌊x⌋ else -⌊-x⌋

/-- The total order realized by a stable ascending argsort: ascending by
value, ties broken by original position. -/
def lexLe (x : ℕ → ℝ) (i j : ℕ) : Prop := x i < x j ∨ (x i = x j ∧ i ≤ j)

instance lexLe_total (x : ℕ → ℝ) : IsTotal ℕ (lexLe x) := by
  constructor
  intro i j
  unfold lexLe
  rcases lt_trichotomy (x i) (x j) with h | h | h
  · exact Or.inl (Or.inl h)
  · rcases Nat.le_total i j with hij | hij
    · exact Or.inl (Or.inr ⟨h, hij⟩)
    · exact Or.inr (Or.inr ⟨h.symm, hij⟩)
  · exact Or.inr (Or.inl h)

instance lexLe_trans (x : ℕ → ℝ) : IsTrans ℕ (lexLe x) := by
  constructor
  intro i j k hij hjk
  unfold lexLe at *
  rcases hij with h1 | ⟨h1, h1'⟩ <;> rcases hjk with h2 | ⟨h2, h2'⟩
  · exact Or.inl (lt_trans h1 h2)
  · exact Or.inl (h2 ▸ h1)
  · exact Or.inl (h1 ▸ h2)
  · exact Or.inr ⟨h1.trans h2, h1'.trans h2'⟩

noncomputable instance lexLe_decidable (x : ℕ → ℝ) : DecidableRel (lexLe x) :=
  fun i j => by
    unfold lexLe
    infer_instance

/-- `np.argsort` with its default `kind="quicksort"` (introsort), which
numpy documents as NOT stable: the relative order of equal values is
unspecified by the library. The model fixes one admissible outcome (the
stable ascending sort, ties by lower index first); no general theorem
below depends on this tie-order choice — it is observable only in the
two-element counterexample evaluation, where every comparison sort
returns the same `[0, 1]`. Modelled from the numpy documentation of
this external library call. -/
noncomputable def argsortStable (x : ℕ → ℝ) (n : ℕ) : List ℕ :=
  List.insertionSort (lexLe x) (List.range n)

/-- Strict interior local maxima, the peak candidates of
`scipy.signal.find_peaks` (modelled from the scipy documentation;
plateau handling is not exercised here). -/
noncomputable def localMaxima (x : List ℝ) : List ℕ :=
  (List.range x.length).filter
    (fun i => 1 ≤ i ∧ i + 1 < x.length
      ∧ x.getD (i - 1) 0 < x.getD i 0 ∧ x.getD (i + 1) 0 < x.getD i 0)

/-- Clearing the neighbours of kept peak `j` that are closer than `dist`
positions, as in scipy's distance selection. -/
def markNeighbors (keep : List Bool) (peaks : List ℕ) (j dist : ℕ) : List Bool :=
  keep.mapIdx (fun k b =>
    if k ≠ j ∧ Nat.dist (peaks.getD k 0) (peaks.getD j 0) < dist then false else b)

/-- scipy's `_select_by_peak_distance`: iterate the peaks from the
highest value downward (stable priority) and clear the not-yet-removed
neighbours closer than `dist` samples. Modelled from the scipy source
semantics of this external library call. -/
noncomputable def selectByPeakDistance (peaks : List ℕ) (x : ℕ → ℝ) (dist : ℕ) : List ℕ :=
  let priority := argsortStable (fun t => x (peaks.getD t 0)) peaks.length
  let keep := priority.reverse.foldl
    (fun keep j => if keep.getD j true then markNeighbors keep peaks j dist else keep)
    (List.replicate peaks.length true)
  ((List.range peaks.length).filter (fun t => keep.getD t true)).map
    (fun t => peaks.getD t 0)

/-- `scipy.signal.find_peaks(x, distance=dist, height=height)`:
candidate local maxima, height filter, then distance selection.
Modelled from the scipy documentation of this external library call. -/
noncomputable def scipyFindPeaks (x : List ℝ) (dist : ℕ) (height : ℝ) : List ℕ :=
  selectByPeakDistance
    ((localMaxima x).filter (fun i => height ≤ x.getD i 0))
    (fun i => x.getD i 0) dist

/-- `find_peaks_in_spectrum` from `fft_analysis.py` (lines 141-189). -/
noncomputable def find_peaks_in_spectrum (frequencies magnitude : List ℝ)
    (num_peaks : ℕ) (min_distance_hz threshold_db : ℝ) : List Peak :=
  let magnitude_db := magnitude.map (fun m => 20 * Real.logb 10 (m + 1e-12))
  let df := if 1 < frequencies.length
    then frequencies.getD 1 0 - frequencies.getD 0 0 else 1
  let min_distance_samples := (max 1 (pyInt (min_distance_hz / df))).toNat
  let peak_indices := scipyFindPeaks magnitude_db min_distance_samples threshold_db
  if peak_indices.isEmpty then []
  else
    let vals := fun t => magnitude_db.getD (peak_indices.getD t 0) 0
    let sorted_idx := (argsortStable vals peak_indices.length).reverse
    let top_peaks := (sorted_idx.take num_peaks).map (fun t => peak_indices.getD t 0)
    top_peaks.map (fun idx =>
      ⟨frequencies.getD idx 0, magnitude.getD idx 0, magnitude_db.getD idx 0⟩)

/- Sortedness facts about the stable argsort. -/

theorem argsortStable_pairwise (x : ℕ → ℝ) (n : ℕ) :
    List.Pairwise (lexLe x) (argsortStable x n) :=
  List.sorted_insertionSort (lexLe x) (List.range n)

theorem argsortStable_perm (x : ℕ → ℝ) (n : ℕ) :
    (argsortStable x n).Perm (List.range n) :=
  List.perm_insertionSort (lexLe x) (List.range n)

theorem argsortStable_nodup (x : ℕ → ℝ) (n : ℕ) : (argsortStable x n).Nodup :=
  (argsortStable_perm x n).nodup_iff.mpr (List.nodup_range n)

theorem argsortStable_mem (x : ℕ → ℝ) (n : ℕ) {t : ℕ}
    (h : t ∈ argsortStable x n) : t < n :=
  List.mem_range.mp ((argsortStable_perm x n).mem_iff.mp h)

/- getD helper lemmas. -/

theorem getD_mem_of_lt {α : Type} (l : List α) (i : ℕ) (d : α) (h : i < l.length) :
    l.getD i d ∈ l := by
  rw [List.getD_eq_getElem?_getD, List.getElem?_eq_getElem h]
  exact List.getElem_mem h

theorem getD_lt_getD {α : Type} [Preorder α] (d : α) (l : List α)
    (hasc : List.Pairwise (· < ·) l) {s t : ℕ} (hst : s < t) (ht : t < l.length) :
    l.getD s d < l.getD t d := by
  have hs : s < l.length := lt_trans hst ht
  rw [List.getD_eq_getElem?_getD, List.getD_eq_getElem?_getD,
    List.getElem?_eq_getElem hs, List.getElem?_eq_getElem ht]
  exact List.pairwise_iff_get.mp hasc ⟨s, hs⟩ ⟨t, ht⟩ hst

theorem getD_map_db (mags : List ℝ) (i : ℕ) (h : i < mags.length) :
    (mags.map (fun m => 20 * Real.logb 10 (m + 1e-12))).getD i 0
      = 20 * Real.logb 10 (mags.getD i 0 + 1e-12) := by
  rw [List.getD_eq_getElem?_getD, List.getD_eq_getElem?_getD, List.getElem?_map,
    List.getElem?_eq_getElem h]
  rfl

/- Monotonicity of the dB map on nonnegative magnitudes. -/

theorem db_lt_db {a b : ℝ} (ha : 0 ≤ a) (hab : a < b) :
    20 * Real.logb 10 (a + 1e-12) < 20 * Real.logb 10 (b + 1e-12) := by
  have h := Real.logb_lt_logb (b := 10) (x := a + 1e-12) (y := b + 1e-12)
    (by norm_num) (by positivity) (by linarith)
  linarith

theorem db_lt_iff {a b : ℝ} (ha : 0 ≤ a) (hb : 0 ≤ b) :
    20 * Real.logb 10 (a + 1e-12) < 20 * Real.logb 10 (b + 1e-12) ↔ a < b := by
  constructor
  · intro h
    by_contra hle
    push_neg at hle
    rcases eq_or_lt_of_le hle with rfl | hlt
    · exact lt_irrefl _ h
    · exact absurd h (not_lt_of_lt (db_lt_db hb hlt))
  · exact db_lt_db ha

theorem db_inj {a b : ℝ} (ha : 0 ≤ a) (hb : 0 ≤ b)
    (h : 20 * Real.logb 10 (a + 1e-12) = 20 * Real.logb 10 (b + 1e-12)) : a = b := by
  rcases lt_trichotomy a b with hab | hab | hab
  · exact absurd h (ne_of_lt (db_lt_db ha hab))
  · exact hab
  · exact absurd h.symm (ne_of_lt (db_lt_db hb hab))

/- The reversed stable argsort: descending lexicographic order. -/

theorem topPositions_pairwise (x : ℕ → ℝ) (n num : ℕ) :
    List.Pairwise (fun t s => lexLe x s t ∧ t ≠ s)
      (((argsortStable x n).reverse).take num) := by
  apply List.Pairwise.sublist (List.take_sublist _ _)
  have h1 : List.Pairwise (fun t s => lexLe x s t) (argsortStable x n).reverse :=
    List.pairwise_reverse.mpr (argsortStable_pairwise x n)
  have h2 : List.Pairwise (fun t s : ℕ => t ≠ s) (argsortStable x n).reverse :=
    List.nodup_reverse.mpr (argsortStable_nodup x n)
  exact h1.and h2

theorem topPositions_bound (x : ℕ → ℝ) (n num : ℕ) {t : ℕ}
    (h : t ∈ ((argsortStable x n).reverse).take num) : t < n :=
  argsortStable_mem x n
    (List.mem_reverse.mp ((List.take_sublist _ _).subset h))

/- Structural facts about the peak-index pipeline: the returned indices
are strictly ascending positions inside the magnitude array. -/

theorem localMaxima_ascending (x : List ℝ) :
    List.Pairwise (· < ·) (localMaxima x)
  ∧ ∀ i ∈ localMaxima x, i < x.length := by
  constructor
  · exact (List.pairwise_lt_range x.length).filter _
  · intro i hi
    unfold localMaxima at hi
    exact List.mem_range.mp (List.mem_of_mem_filter hi)

theorem filter_range_map_getD_ascending (peaks : List ℕ) (p : ℕ → Bool)
    (hasc : List.Pairwise (· < ·) peaks) :
    List.Pairwise (· < ·)
      (((List.range peaks.length).filter p).map (fun t => peaks.getD t 0))
  ∧ ∀ i ∈ ((List.range peaks.length).filter p).map (fun t => peaks.getD t 0),
      i ∈ peaks := by
  constructor
  · rw [List.pairwise_map]
    apply List.Pairwise.imp_of_mem ?_
      (((List.pairwise_lt_range peaks.length).filter p))
    intro t s ht hs hts
    have hsn : s < peaks.length := List.mem_range.mp (List.mem_of_mem_filter hs)
    exact getD_lt_getD 0 peaks hasc hts hsn
  · intro i hi
    rcases List.mem_map.mp hi with ⟨t, ht, rfl⟩
    exact getD_mem_of_lt peaks t 0 (List.mem_range.mp (List.mem_of_mem_filter ht))

theorem selectByPeakDistance_ascending (peaks : List ℕ) (x : ℕ → ℝ) (dist : ℕ)
    (hasc : List.Pairwise (· < ·) peaks) :
    List.Pairwise (· < ·) (selectByPeakDistance peaks x dist)
  ∧ ∀ i ∈ selectByPeakDistance peaks x dist, i ∈ peaks := by
  unfold selectByPeakDistance
  exact filter_range_map_getD_ascending peaks _ hasc

theorem scipyFindPeaks_ascending (x : List ℝ) (dist : ℕ) (height : ℝ) :
    List.Pairwise (· < ·) (scipyFindPeaks x dist height)
  ∧ ∀ i ∈ scipyFindPeaks x dist height, i < x.length := by
  unfold scipyFindPeaks
  have h1 := localMaxima_ascending x
  have h2 := selectByPeakDistance_ascending
    ((localMaxima x).filter (fun i => decide (height ≤ x.getD i 0)))
    (fun i => x.getD i 0) dist (h1.1.filter _)
  exact ⟨h2.1, fun i hi => h1.2 i (List.mem_of_mem_filter (h2.2 i hi))⟩

theorem topStage_spec (frequencies magnitude : List ℝ) (num : ℕ) (peaks : List ℕ)
    (hbound : ∀ i ∈ peaks, i < magnitude.length)
    (hmag : ∀ m ∈ magnitude, 0 ≤ m) :
    List.Pairwise (fun p q : Peak => q.magnitude ≤ p.magnitude)
      ((((argsortStable (fun t =>
            (magnitude.map (fun m => 20 * Real.logb 10 (m + 1e-12))).getD
              (peaks.getD t 0) 0)
          peaks.length).reverse.take num).map (fun t => peaks.getD t 0)).map
        (fun idx => ⟨frequencies.getD idx 0, magnitude.getD idx 0,
          (magnitude.map (fun m => 20 * Real.logb 10 (m + 1e-12))).getD idx 0⟩)) := by
  rw [List.map_map, List.pairwise_map]
  apply List.Pairwise.imp_of_mem ?_ (topPositions_pairwise _ peaks.length num)
  intro t s ht hs hrel
  obtain ⟨hlex, hne⟩ := hrel
  have htn : t < peaks.length := topPositions_bound _ _ _ ht
  have hsn : s < peaks.length := topPositions_bound _ _ _ hs
  have hit : peaks.getD t 0 < magnitude.length := hbound _ (getD_mem_of_lt _ _ _ htn)
  have his : peaks.getD s 0 < magnitude.length := hbound _ (getD_mem_of_lt _ _ _ hsn)
  have hvt := getD_map_db magnitude (peaks.getD t 0) hit
  have hvs := getD_map_db magnitude (peaks.getD s 0) his
  have hmt : 0 ≤ magnitude.getD (peaks.getD t 0) 0 :=
    hmag _ (getD_mem_of_lt _ _ _ hit)
  have hms : 0 ≤ magnitude.getD (peaks.getD s 0) 0 :=
    hmag _ (getD_mem_of_lt _ _ _ his)
  dsimp only [Function.comp_apply]
  dsimp only [lexLe] at hlex
  by_contra hcon
  push_neg at hcon
  have hdb := db_lt_db hmt hcon
  rw [← hvt, ← hvs] at hdb
  rcases hlex with hlt | ⟨heq, _⟩
  · exact absurd hlt (lt_asymm hdb)
  · rw [heq] at hdb
    exact lt_irrefl _ hdb

/-- Claim C7 (amended): `find_peaks_in_spectrum` returns at most
`num_peaks` entries sorted by non-increasing amplitude. The relative
order of equal-amplitude peaks is not a guarantee of the program
(numpy's default argsort is documented as not stable), and the claimed
lower-frequency-first tie order in particular fails: see the
counterexample, whose two-element tie is resolved the same way by every
comparison sort. -/
theorem find_peaks_sorted_trunc (frequencies magnitude : List ℝ) (num_peaks : ℕ)
    (min_distance_hz threshold_db : ℝ)
    (hmag : ∀ m ∈ magnitude, 0 ≤ m) :
    (find_peaks_in_spectrum frequencies magnitude num_peaks
        min_distance_hz threshold_db).length ≤ num_peaks
  ∧ List.Pairwise (fun p q : Peak => q.magnitude ≤ p.magnitude)
      (find_peaks_in_spectrum frequencies magnitude num_peaks
        min_distance_hz threshold_db) := by
  simp only [find_peaks_in_spectrum]
  generalize (max 1 (pyInt (min_distance_hz /
    (if 1 < frequencies.length
      then frequencies.getD 1 0 - frequencies.getD 0 0 else 1)))).toNat = dsamp
  split_ifs with hemp
  · exact ⟨by simp, by simp⟩
  · constructor
    · simp only [List.length_map, List.length_take]
      omega
    · have hsp := scipyFindPeaks_ascending
        (magnitude.map (fun m => 20 * Real.logb 10 (m + 1e-12))) dsamp threshold_db
      refine topStage_spec frequencies magnitude num_peaks _ ?_ hmag
      intro i hi
      have := hsp.2 i hi
      rwa [List.length_map] at this

/- Concrete evaluation of the peak pipeline on a two-equal-peaks
spectrum. -/

theorem argsort_two_ties (v : ℕ → ℝ) (hv : v 0 = v 1) : argsortStable v 2 = [0, 1] := by
  unfold argsortStable
  have hcond : lexLe v 0 1 := Or.inr ⟨hv, by norm_num⟩
  show List.insertionSort (lexLe v) [0, 1] = [0, 1]
  simp [List.insertionSort, List.orderedInsert, hcond]

theorem localMaxima_two_peaks (d0 d5 : ℝ) (h05 : d0 < d5) :
    localMaxima [d0, d5, d0, d5, d0] = [1, 3] := by
  have hn : ¬ d5 < d0 := lt_asymm h05
  unfold localMaxima
  show ([0, 1, 2, 3, 4] : List ℕ).filter _ = [1, 3]
  simp only [List.filter_cons, List.filter_nil, List.getD_cons_zero, List.getD_cons_succ,
    List.length_cons, List.length_nil, decide_eq_true_eq]
  norm_num [h05, hn]

theorem scipyFindPeaks_two_peaks (d0 d5 : ℝ) (h05 : d0 < d5) (hthr : (-60:ℝ) ≤ d5) :
    scipyFindPeaks [d0, d5, d0, d5, d0] 2 (-60) = [1, 3] := by
  unfold scipyFindPeaks
  rw [localMaxima_two_peaks d0 d5 h05]
  have hhf : ([1, 3] : List ℕ).filter
      (fun i => decide ((-60:ℝ) ≤ ([d0, d5, d0, d5, d0] : List ℝ).getD i 0)) = [1, 3] := by
    simp only [List.filter_cons, List.filter_nil, List.getD_cons_zero, List.getD_cons_succ,
      decide_eq_true_eq]
    norm_num [hthr]
  rw [hhf]
  simp only [selectByPeakDistance]
  have hsort : argsortStable
      (fun t => ([d0, d5, d0, d5, d0] : List ℝ).getD (([1, 3] : List ℕ).getD t 0) 0)
      (([1, 3] : List ℕ).length) = [0, 1] := by
    show argsortStable _ 2 = [0, 1]
    exact argsort_two_ties _ rfl
  rw [hsort]
  rfl

/-- Counterexample to claim C7: on the spectrum with frequencies
`[0, 1, 2, 3, 4]` and magnitudes `[0, 5, 0, 5, 0]` (two equal peaks at
1 Hz and 3 Hz), `find_peaks_in_spectrum` returns the 3 Hz peak before
the equal-amplitude 1 Hz peak, refuting the lower-frequency-first tie
order. On this two-element tie every comparison sort produces the same
argsort `[0, 1]`, so the outcome does not depend on the modelled tie
order of numpy's unstable default sort. -/
theorem find_peaks_tie_counterexample :
    (find_peaks_in_spectrum [0, 1, 2, 3, 4] [0, 5, 0, 5, 0] 10 2 (-60)).map
        Peak.frequency_hz = [3, 1]
  ∧ (find_peaks_in_spectrum [0, 1, 2, 3, 4] [0, 5, 0, 5, 0] 10 2 (-60)).map
        Peak.magnitude = [5, 5]
  ∧ (1:ℝ) < 3 := by
  have h05 : 20 * Real.logb 10 ((0:ℝ) + 1e-12) < 20 * Real.logb 10 ((5:ℝ) + 1e-12) :=
    db_lt_db le_rfl (by norm_num)
  have hthr : (-60:ℝ) ≤ 20 * Real.logb 10 ((5:ℝ) + 1e-12) := by
    have h := Real.logb_nonneg (b := 10) (x := (5:ℝ) + 1e-12) (by norm_num) (by norm_num)
    linarith
  have hdb : ([0, 5, 0, 5, 0] : List ℝ).map (fun m => 20 * Real.logb 10 (m + 1e-12))
      = [20 * Real.logb 10 ((0:ℝ) + 1e-12), 20 * Real.logb 10 ((5:ℝ) + 1e-12),
         20 * Real.logb 10 ((0:ℝ) + 1e-12), 20 * Real.logb 10 ((5:ℝ) + 1e-12),
         20 * Real.logb 10 ((0:ℝ) + 1e-12)] := rfl
  have hdist : (max 1 (pyInt ((2:ℝ) /
      (if 1 < ([0, 1, 2, 3, 4] : List ℝ).length
        then ([0, 1, 2, 3, 4] : List ℝ).getD 1 0 - ([0, 1, 2, 3, 4] : List ℝ).getD 0 0
        else 1)))).toNat = 2 := by
    norm_num [pyInt, List.getD_cons_zero, List.getD_cons_succ]
    rfl
  simp only [find_peaks_in_spectrum]
  rw [hdb, hdist, scipyFindPeaks_two_peaks _ _ h05 hthr]
  rw [if_neg (by decide : ¬ (([1, 3] : List ℕ).isEmpty = true))]
  have hsort2 : argsortStable
      (fun t => ([20 * Real.logb 10 ((0:ℝ) + 1e-12), 20 * Real.logb 10 ((5:ℝ) + 1e-12),
          20 * Real.logb 10 ((0:ℝ) + 1e-12), 20 * Real.logb 10 ((5:ℝ) + 1e-12),
          20 * Real.logb 10 ((0:ℝ) + 1e-12)] : List ℝ).getD
        (([1, 3] : List ℕ).getD t 0) 0)
      (([1, 3] : List ℕ).length) = [0, 1] := by
    show argsortStable _ 2 = [0, 1]
    exact argsort_two_ties _ rfl
  rw [hsort2]
  exact ⟨rfl, rfl, by norm_num⟩

theorem find_peaks_sorted_trunc_witness :
    (∀ m ∈ ([0, 1, 0] : List ℝ), 0 ≤ m)
  ∧ ((find_peaks_in_spectrum [0, 1, 2] [0, 1, 0] 10 5 (-60)).length ≤ 10
    ∧ List.Pairwise (fun p q : Peak => q.magnitude ≤ p.magnitude)
      (find_peaks_in_spectrum [0, 1, 2] [0, 1, 0] 10 5 (-60))) :=
  ⟨by
      intro m hm
      simp only [List.mem_cons, List.not_mem_nil, or_false] at hm
      rcases hm with rfl | rfl | rfl <;> norm_num,
    find_peaks_sorted_trunc [0, 1, 2] [0, 1, 0] 10 5 (-60)
      (by
        intro m hm
        simp only [List.mem_cons, List.not_mem_nil, or_false] at hm
        rcases hm with rfl | rfl | rfl <;> norm_num)⟩
